import Mathlib

/-!
Verification model of the `condrove10/retryablehttp` repository.

The repository has two packages:
* `backoffpolicy` (src/backoffpolicy/backoffpolicy.go): strategy validation and
  the retry/backoff driver `BackoffPolicy`.
* `retryablehttp` (src/retryablehttp.go): the retrying HTTP client (`Client`,
  functional options, `defaultPolicy`, and `Do`).

Conventions of the shallow embedding:
* Go `time.Duration` (an `int64` nanosecond count) is modelled as `Int`, with
  the `int64` arithmetic made explicit where the source performs it: the
  exponential delay `delay * time.Duration(math.Pow(2, float64(attempt)))` is
  modelled as `int64Wrap (delay * durationOfPow2 attempt)`, where
  `durationOfPow2` is the `float64`-to-`int64` conversion of
  `math.Pow(2, float64(attempt))` and `int64Wrap` is two's-complement
  wrap-around of the multiplication.  Meaningful instantiations take `delay`
  in `int64` range, as in Go.
* Go `error` results are `Option ε` (`none` = nil error), and functions that
  return `(T, error)` pairs return the corresponding product.
* Side effects are made observable: `BackoffPolicy` threads an explicit shared
  state `σ` (the state mutated by the Go closure passed to it and advanced by
  `time.Sleep`) and additionally returns the list of observable events
  (`invoke` of the attempt callback, `sleep` of a computed duration) in the
  order the Go code performs them.
-/

namespace backoffpolicy

/-- Go: `StrategyLinear Strategy = "Linear"` (`Strategy` is a string type). -/
def StrategyLinear : String := "Linear"

/-- Go: `StrategyExponential Strategy = "Exponential"`. -/
def StrategyExponential : String := "Exponential"

/-- Go: the `allowedStrategies` slice inside `ValidateStrategy`. -/
def allowedStrategies : List String := [StrategyLinear, StrategyExponential]

/-- Go `ValidateStrategy`: returns `nil` (here `none`) when `s` is one of the
allowed strategies, and the error `"invalid strategy: " + s` otherwise. -/
def ValidateStrategy (s : String) : Option String :=
  if allowedStrategies.contains s then none else some ("invalid strategy: " ++ s)

/-- Two's-complement `int64` wrap-around: the value a Go `int64` computation
produces for the exact integer `x`. -/
def int64Wrap (x : Int) : Int :=
  (x + 2 ^ 63) % 2 ^ 64 - 2 ^ 63

/-- Go `time.Duration(math.Pow(2, float64(attempt)))`.  For `attempt ≤ 62`
the conversion is exact: `math.Pow(2, k)` is exactly `2^k` in `float64` for
every `k ≤ 1023`, and `2^62` fits in `int64`.  For `attempt ≥ 63` the value
does not fit and the Go specification makes the conversion result
implementation-dependent; we pin the gc/amd64 result, the x86 "integer
indefinite" value `math.MinInt64`.  No theorem below depends on the pinned
choice. -/
def durationOfPow2 (attempt : Nat) : Int :=
  if attempt ≤ 62 then 2 ^ attempt else -(2 ^ 63)

/-- Observable events of one `BackoffPolicy` run, in execution order:
`invoke a r` is the call `policy(a)` returning `r` (`none` = nil error), and
`sleep d` is `time.Sleep(d)` with the computed duration `d`. -/
inductive BEvent (ε : Type) where
  | invoke (attempt : Nat) (result : Option ε)
  | sleep (d : Int)
deriving DecidableEq

/-- The errors `BackoffPolicy` itself can return, mirroring the four
`return`-with-error sites of the Go function:
`strategyValidation s` is `"strategy validation failed: invalid strategy: " + s`,
`attemptsValidation` is `"attempts validation failed: ..."` from the
`"required,gt=0,lte=100000"` validator, `invalidStrategy` is the
`"invalid backoff strategy"` default branch of the switch, and `exhausted e` is
`"backoff policy exhausted: %w"` wrapping the last attempt error `e`. -/
inductive BErr (ε : Type) where
  | strategyValidation (s : String)
  | attemptsValidation
  | invalidStrategy
  | exhausted (last : Option ε)
deriving DecidableEq

/-- The `for attempt := 0; attempt < attempts; attempt++` loop of
`BackoffPolicy`, parametrised by the effect of `time.Sleep` on the shared state
(`sleepFx`) and by the attempt callback (`step`, which may mutate the shared
state, as the closure in `retryablehttp.Do` does).  Arguments: current attempt
index, remaining iterations, the value of the Go `err` variable from the
previous iteration, current shared state.  Returns the final shared state, the
event list, and the overall result (`none` = the Go function returned nil). -/
def backoffLoop (strategy : String) (delay : Int) (sleepFx : Int → σ → σ)
    (step : Nat → σ → σ × Option ε) :
    Nat → Nat → Option ε → σ → σ × List (BEvent ε) × Option (BErr ε)
  | _, 0, lastErr, s => (s, [], some (.exhausted lastErr))
  | attempt, r + 1, _, s =>
    let st := step attempt s
    match st.2 with
    | none => (st.1, [.invoke attempt none], none)
    | some e =>
      if strategy = StrategyExponential then
        let d := int64Wrap (delay * durationOfPow2 attempt)
        let rest := backoffLoop strategy delay sleepFx step (attempt + 1) r (some e)
          (sleepFx d st.1)
        (rest.1, .invoke attempt (some e) :: .sleep d :: rest.2.1, rest.2.2)
      else if strategy = StrategyLinear then
        let rest := backoffLoop strategy delay sleepFx step (attempt + 1) r (some e)
          (sleepFx delay st.1)
        (rest.1, .invoke attempt (some e) :: .sleep delay :: rest.2.1, rest.2.2)
      else
        (st.1, [.invoke attempt (some e)], some .invalidStrategy)

/-- Go `BackoffPolicy(strategy, attempts, delay, policy)`.  It first runs
`ValidateStrategy`, then validates `attempts` against
`"required,gt=0,lte=100000"` (which rejects exactly `attempts ≤ 0` and
`attempts > 100000`), then runs the attempt loop. -/
def BackoffPolicy (strategy : String) (attempts : Int) (delay : Int)
    (sleepFx : Int → σ → σ) (step : Nat → σ → σ × Option ε) (s0 : σ) :
    σ × List (BEvent ε) × Option (BErr ε) :=
  match ValidateStrategy strategy with
  | some m => (s0, [], some (.strategyValidation m))
  | none =>
    if attempts ≤ 0 ∨ 100000 < attempts then (s0, [], some .attemptsValidation)
    else backoffLoop strategy delay sleepFx step 0 attempts.toNat none s0

/-- `BackoffPolicy` applied to a pure attempt callback (no shared state): the
form in which the `backoffpolicy` package contract is stated.  Returns the
event list and the result. -/
def BackoffPolicyP (strategy : String) (attempts : Int) (delay : Int)
    (p : Nat → Option ε) : List (BEvent ε) × Option (BErr ε) :=
  (BackoffPolicy strategy attempts delay (fun _ s => s) (fun i s => (s, p i)) ()).2

/-- The pure-instance loop, for reasoning about `BackoffPolicyP`. -/
def pureLoop (strategy : String) (delay : Int) (p : Nat → Option ε)
    (a r : Nat) (lastErr : Option ε) : List (BEvent ε) × Option (BErr ε) :=
  (backoffLoop strategy delay (fun _ s => s) (fun i s => (s, p i)) a r lastErr ()).2

/-- Attempt indices actually invoked during a run, in order. -/
def invokedIndices (E : List (BEvent ε)) : List Nat :=
  E.filterMap fun ev => match ev with
    | .invoke i _ => some i
    | .sleep _ => none

/-- Sleep durations performed during a run, in order. -/
def sleepsOf (E : List (BEvent ε)) : List Int :=
  E.filterMap fun ev => match ev with
    | .invoke _ _ => none
    | .sleep d => some d

/-- The sleep duration the loop computes after a failed attempt `i` (the wait
separating attempt `i` from attempt `i + 1`), for a recognized strategy: under
Exponential the `int64` value of
`delay * time.Duration(math.Pow(2, float64(i)))`, under Linear `delay`.  The
Exponential value equals the mathematical `delay * 2 ^ i` exactly when
`i ≤ 62` and that product fits in `int64`. -/
def delayFor (strategy : String) (delay : Int) (i : Nat) : Int :=
  if strategy = StrategyExponential then int64Wrap (delay * durationOfPow2 i) else delay

/-- Expected event shape of a maximal run of consecutive failing attempts
starting at index `a` and `n` attempts long: each failed invocation is followed
by the strategy's sleep. -/
def failTrace (strategy : String) (delay : Int) (p : Nat → Option ε) :
    Nat → Nat → List (BEvent ε)
  | _, 0 => []
  | a, n + 1 =>
    .invoke a (p a) :: .sleep (delayFor strategy delay a) ::
      failTrace strategy delay p (a + 1) n

end backoffpolicy

namespace retryablehttp

open backoffpolicy

/-- Go `http.Response`, reduced to the only field this package reads. -/
structure Response where
  statusCode : Int
deriving DecidableEq

/-- Errors returned by `defaultPolicy`: `propagating e` is
`"propagating error: %w"` wrapping the transport error, `statusOutside c` is
`"HTTP response status code (%d) outside boundaries"` carrying the status code.
`nilResponse` marks the branch in which Go would dereference a nil
`*http.Response` (a panic); it is unreachable when the transport obeys the
`net/http` contract (non-nil response exactly when the error is nil). -/
inductive DPErr (ε : Type) where
  | propagating (e : ε)
  | statusOutside (code : Int)
  | nilResponse
deriving DecidableEq

/-- Go `defaultPolicy`: propagate a non-nil transport error, otherwise accept
exactly status codes with `200 <= code <= 299`. -/
def defaultPolicy (resp : Option Response) (err : Option ε) : Option (DPErr ε) :=
  match err with
  | some e => some (.propagating e)
  | none =>
    match resp with
    | some r =>
      if r.statusCode < 200 ∨ 299 < r.statusCode then some (.statusOutside r.statusCode)
      else none
    | none => some .nilResponse

/-- The configuration fields of Go `Client` that the retry logic reads
(`attempts uint32` is modelled as `Nat`, `delay time.Duration` as `Int`).
The function-valued fields (`httpClient`, `policy`) and the context are passed
to `Do` explicitly, as collaborator parameters. -/
structure Client where
  attempts : Nat
  delay : Int
  strategy : String
deriving DecidableEq

/-- Go `WithAttempts`: rejects `attempts < 1` (for `uint32`, exactly 0). -/
def WithAttempts (attempts : Nat) (c : Client) : Except String Client :=
  if attempts < 1 then .error "invalid attempts value"
  else .ok { c with attempts := attempts }

/-- Go `WithStrategy`: rejects a strategy that is not in
`[StrategyExponential, StrategyLinear]` (`slices.Index ... == -1` is exactly
non-membership in that slice). -/
def WithStrategy (strategy : String) (c : Client) : Except String Client :=
  if ([StrategyExponential, StrategyLinear] : List String).contains strategy then
    .ok { c with strategy := strategy }
  else .error "invalid backoff strategy"

/-- The mutable state shared by one `Do` call and its attempt closure:
`now` is the clock advanced by `time.Sleep` (the cancellation deadline is
compared against it), `bodyRem` the unread bytes of `req.Body`, `resp` the
Go `resp` variable, and `sends` the log of transport invocations
(attempt index, body bytes delivered to the transport). -/
structure DoState where
  now : Int
  bodyRem : List Nat
  resp : Option Response
  sends : List (Nat × List Nat)
deriving DecidableEq

/-- The observable effect of Go `time.Sleep(d)` on the shared state: the full
duration elapses unconditionally (a negative duration returns at once);
`time.Sleep` does not observe any cancellation signal. -/
def sleepFxDo (d : Int) (s : DoState) : DoState :=
  { s with now := s.now + max d 0 }

/-- The client's `context.Context`, modelled by the absolute time `cancelAt`
at which it is cancelled/expires (`none` = never): `ctx.Done()` is closed and
`ctx.Err()` is non-nil exactly when `cancelAt ≤ now`. -/
def ctxTriggered (cancelAt : Option Int) (now : Int) : Bool :=
  match cancelAt with
  | some t => decide (t ≤ now)
  | none => false

/-- Errors produced by the attempt closure inside `Do`: `ctxClosed` is
`"retryable http call context closed: %w"`, `policyReject e` is a non-nil
result of `c.policy`. -/
inductive AttemptErr (π : Type) where
  | ctxClosed
  | policyReject (e : π)
deriving DecidableEq

/-- The closure `Do` passes to `BackoffPolicy` (src/retryablehttp.go lines
159-176): check the context, for `attempt > 0` reset `req.Body` to a fresh
reader over the original `body` bytes, invoke the transport (which is free to
consume the whole stream: the delivered bytes are recorded and the stream is
left drained), store the response in the shared `resp` variable, and classify
the outcome with the configured policy.  The transport collaborator
(`c.httpClient.Do`) is a stub mapping the attempt index to its
`(*http.Response, error)` pair. -/
def doStep (cancelAt : Option Int) (transport : Nat → Option Response × Option τ)
    (policy : Option Response → Option τ → Option π) (body : List Nat)
    (attempt : Nat) (s : DoState) : DoState × Option (AttemptErr π) :=
  if ctxTriggered cancelAt s.now then (s, some .ctxClosed)
  else
    let s1 := if 0 < attempt then { s with bodyRem := body } else s
    let delivered := s1.bodyRem
    let tr := transport attempt
    let newSends := s1.sends ++ [(attempt, delivered)]
    let s2 := { s1 with bodyRem := ([] : List Nat), resp := tr.1, sends := newSends }
    (s2, (policy tr.1 tr.2).map AttemptErr.policyReject)

/-- Errors `Do` can return: `urlValidation` is `"url validation failed: %w"`,
`newRequest` is `"failed to create http request: %w"`, `contextClosed` is
`"context closed: %w"` from the `select`, and `backoffExpired e` is
`"backoff policy expired: %w"` wrapping the `BackoffPolicy` error. -/
inductive DoErr (π : Type) where
  | urlValidation
  | newRequest
  | contextClosed
  | backoffExpired (e : BErr (AttemptErr π))
deriving DecidableEq

/-- Result of one `Do` call: the returned `(*http.Response, error)` pair plus
the observable trace (transport sends and backoff events). -/
structure DoOut (π : Type) where
  resp : Option Response
  err : Option (DoErr π)
  sends : List (Nat × List Nat)
  events : List (BEvent (AttemptErr π))
deriving DecidableEq

/-- Go `Client.Do` (src/retryablehttp.go lines 133-184).  Collaborators are
explicit parameters: `isHttpUrl` is the `"required,http_url"` validator,
`newReqOk` tells whether `http.NewRequestWithContext` succeeds for the given
method and URL, `transport` is `c.httpClient.Do`, `policy` is `c.policy`, and
`cancelAt`/`startNow` model the client context and the wall clock at entry.
Steps, in source order: URL validation; request construction (`req.Body` is a
fresh reader over `body`); the `select` on `ctx.Done()` (taken exactly when the
context is already cancelled, since a ready case wins over `default`); the
`BackoffPolicy` call; on a backoff error return `(nil, wrapped error)`,
otherwise return the last response. -/
def Do (cancelAt : Option Int) (startNow : Int) (c : Client)
    (isHttpUrl : String → Bool) (newReqOk : String → String → Bool)
    (transport : Nat → Option Response × Option τ)
    (policy : Option Response → Option τ → Option π)
    (url method : String) (body : List Nat) : DoOut π :=
  if ¬ isHttpUrl url then ⟨none, some .urlValidation, [], []⟩
  else if ¬ newReqOk method url then ⟨none, some .newRequest, [], []⟩
  else
    let s0 : DoState := ⟨startNow, body, some ⟨0⟩, []⟩
    if ctxTriggered cancelAt startNow then ⟨none, some .contextClosed, s0.sends, []⟩
    else
      let out := BackoffPolicy c.strategy (c.attempts : Int) c.delay sleepFxDo
        (doStep cancelAt transport policy body) s0
      match out.2.2 with
      | some e => ⟨none, some (.backoffExpired e), out.1.sends, out.2.1⟩
      | none => ⟨out.1.resp, none, out.1.sends, out.2.1⟩

end retryablehttp

namespace Fixtures

open backoffpolicy retryablehttp

/-- An attempt callback that fails on every invocation. -/
def alwaysFailU : Nat → Option Unit := fun _ => some ()

/-- An attempt callback that succeeds on every invocation. -/
def alwaysOkU : Nat → Option Unit := fun _ => none

/-- A URL validator stub accepting everything. -/
def urlOkAll : String → Bool := fun _ => true

/-- A URL validator stub accepting exactly one concrete well-formed URL. -/
def urlOkOne : String → Bool := fun s => s = "http://example.com"

/-- A request-construction stub that always succeeds. -/
def reqOkAll : String → String → Bool := fun _ _ => true

/-- A transport stub answering status 500 on every attempt, with nil error. -/
def transport500 : Nat → Option Response × Option Unit :=
  fun _ => (some ⟨500⟩, none)

/-- A transport stub failing with status 500 on attempt 0 and succeeding with
status 200 from attempt 1 on, with nil error. -/
def transport500then200 : Nat → Option Response × Option Unit :=
  fun i => if i = 0 then (some ⟨500⟩, none) else (some ⟨200⟩, none)

/-- A sample client configuration: 5 attempts, Linear strategy. -/
def clientL5 : Client := ⟨5, 1, StrategyLinear⟩

/-- A client configuration used for the cancellation-during-sleep run:
3 attempts, Linear strategy, delay 10. -/
def clientL3d10 : Client := ⟨3, 10, StrategyLinear⟩

end Fixtures

section BackoffLemmas

open backoffpolicy

variable {ε : Type}

theorem validateStrategy_linear : ValidateStrategy StrategyLinear = none := by decide

theorem validateStrategy_exponential : ValidateStrategy StrategyExponential = none := by decide

theorem pureLoop_zero (strategy : String) (delay : Int) (p : Nat → Option ε)
    (a : Nat) (lastErr : Option ε) :
    pureLoop strategy delay p a 0 lastErr = ([], some (.exhausted lastErr)) := rfl

theorem pureLoop_succ_success (strategy : String) (delay : Int) (p : Nat → Option ε)
    (a r : Nat) (lastErr : Option ε) (h : p a = none) :
    pureLoop strategy delay p a (r + 1) lastErr = ([.invoke a none], none) := by
  simp [pureLoop, backoffLoop, h]

theorem pureLoop_succ_fail (strategy : String) (delay : Int) (p : Nat → Option ε)
    (a r : Nat) (lastErr : Option ε) (e : ε) (h : p a = some e)
    (hs : strategy = StrategyLinear ∨ strategy = StrategyExponential) :
    pureLoop strategy delay p a (r + 1) lastErr =
      (.invoke a (some e) :: .sleep (delayFor strategy delay a) ::
        (pureLoop strategy delay p (a + 1) r (some e)).1,
       (pureLoop strategy delay p (a + 1) r (some e)).2) := by
  rcases hs with hs | hs <;> subst hs <;>
    simp [pureLoop, backoffLoop, h, delayFor, StrategyLinear, StrategyExponential]

theorem pureLoop_allFail_events (strategy : String) (delay : Int) (p : Nat → Option ε)
    (hs : strategy = StrategyLinear ∨ strategy = StrategyExponential) :
    ∀ (r a : Nat) (lastErr : Option ε), (∀ j, a ≤ j → j < a + r → (p j).isSome) →
      (pureLoop strategy delay p a r lastErr).1 = failTrace strategy delay p a r := by
  intro r
  induction r with
  | zero => intro a lastErr _; rfl
  | succ r ih =>
    intro a lastErr h
    obtain ⟨e, he⟩ := Option.isSome_iff_exists.mp (h a (le_refl a) (by omega))
    rw [pureLoop_succ_fail strategy delay p a r lastErr e he hs, failTrace, he]
    have := ih (a + 1) (some e) (fun j h1 h2 => h j (by omega) (by omega))
    rw [this]

theorem pureLoop_allFail_result (strategy : String) (delay : Int) (p : Nat → Option ε)
    (hs : strategy = StrategyLinear ∨ strategy = StrategyExponential) :
    ∀ (r a : Nat) (lastErr : Option ε), (∀ j, a ≤ j → j < a + (r + 1) → (p j).isSome) →
      (pureLoop strategy delay p a (r + 1) lastErr).2 = some (.exhausted (p (a + r))) := by
  intro r
  induction r with
  | zero =>
    intro a lastErr h
    obtain ⟨e, he⟩ := Option.isSome_iff_exists.mp (h a (le_refl a) (by omega))
    rw [pureLoop_succ_fail strategy delay p a 0 lastErr e he hs]
    simp [pureLoop_zero, he]
  | succ r ih =>
    intro a lastErr h
    obtain ⟨e, he⟩ := Option.isSome_iff_exists.mp (h a (le_refl a) (by omega))
    rw [pureLoop_succ_fail strategy delay p a (r + 1) lastErr e he hs]
    have := ih (a + 1) (some e) (fun j h1 h2 => h j (by omega) (by omega))
    rw [this]
    congr 3
    omega

theorem pureLoop_firstSuccess (strategy : String) (delay : Int) (p : Nat → Option ε)
    (hs : strategy = StrategyLinear ∨ strategy = StrategyExponential) (k : Nat)
    (hk : p k = none) (hmin : ∀ j, j < k → (p j).isSome) :
    ∀ (r a : Nat) (lastErr : Option ε), a ≤ k → k < a + r →
      pureLoop strategy delay p a r lastErr =
        (failTrace strategy delay p a (k - a) ++ [.invoke k none], none) := by
  intro r
  induction r with
  | zero => intro a lastErr hak hkr; omega
  | succ r ih =>
    intro a lastErr hak hkr
    by_cases hek : a = k
    · subst hek
      rw [pureLoop_succ_success strategy delay p a r lastErr hk]
      simp [failTrace]
    · obtain ⟨e, he⟩ := Option.isSome_iff_exists.mp (hmin a (by omega))
      rw [pureLoop_succ_fail strategy delay p a r lastErr e he hs]
      have hrec := ih (a + 1) (some e) (by omega) (by omega)
      obtain ⟨m, hm⟩ : ∃ m, k - a = m + 1 := ⟨k - a - 1, by omega⟩
      rw [hrec, hm, failTrace, he]
      have : m = k - (a + 1) := by omega
      rw [this]
      constructor

theorem failTrace_length (strategy : String) (delay : Int) (p : Nat → Option ε) :
    ∀ (n a : Nat), (failTrace strategy delay p a n).length = 2 * n := by
  intro n
  induction n with
  | zero => intro a; rfl
  | succ n ih => intro a; simp [failTrace, ih (a + 1)]; omega

theorem failTrace_invokedIndices (strategy : String) (delay : Int) (p : Nat → Option ε) :
    ∀ (n a : Nat), invokedIndices (failTrace strategy delay p a n) = List.range' a n := by
  intro n
  induction n with
  | zero => intro a; rfl
  | succ n ih =>
    intro a
    rw [List.range'_succ a n 1]
    simp only [failTrace, invokedIndices, List.filterMap_cons]
    rw [show List.filterMap _ (failTrace strategy delay p (a + 1) n) =
      invokedIndices (failTrace strategy delay p (a + 1) n) from rfl, ih (a + 1)]

theorem failTrace_getLast (strategy : String) (delay : Int) (p : Nat → Option ε) :
    ∀ (n a : Nat), (failTrace strategy delay p a (n + 1)).getLast? =
      some (.sleep (delayFor strategy delay (a + n))) := by
  intro n
  induction n with
  | zero => intro a; rfl
  | succ n ih =>
    intro a
    have h1 : failTrace strategy delay p a (n + 2) =
        .invoke a (p a) :: .sleep (delayFor strategy delay a) ::
          failTrace strategy delay p (a + 1) (n + 1) := rfl
    have h2 : failTrace strategy delay p (a + 1) (n + 1) =
        .invoke (a + 1) (p (a + 1)) :: .sleep (delayFor strategy delay (a + 1)) ::
          failTrace strategy delay p (a + 2) n := rfl
    rw [h1, h2, List.getLast?_cons_cons, List.getLast?_cons_cons, ← h2, ih (a + 1),
      show a + 1 + n = a + (n + 1) from by omega]

theorem failTrace_getElem_invoke (strategy : String) (delay : Int) (p : Nat → Option ε) :
    ∀ (n a j : Nat), j < n →
      (failTrace strategy delay p a n)[2 * j]? = some (.invoke (a + j) (p (a + j))) ∧
      (failTrace strategy delay p a n)[2 * j + 1]? =
        some (.sleep (delayFor strategy delay (a + j))) := by
  intro n
  induction n with
  | zero => intro a j h; omega
  | succ n ih =>
    intro a j h
    match j with
    | 0 => simp [failTrace]
    | j + 1 =>
      have h2 : 2 * (j + 1) = 2 * j + 1 + 1 := by omega
      rw [h2]
      simp only [failTrace, List.getElem?_cons_succ]
      have := ih (a + 1) j (by omega)
      rw [show a + 1 + j = a + (j + 1) from by omega] at this
      exact this

theorem failTrace_mem_invoke (strategy : String) (delay : Int) (p : Nat → Option ε) :
    ∀ (n a i : Nat) (res : Option ε),
      BEvent.invoke i res ∈ failTrace strategy delay p a n → a ≤ i ∧ i < a + n := by
  intro n
  induction n with
  | zero => intro a i res h; simp [failTrace] at h
  | succ n ih =>
    intro a i res h
    simp only [failTrace, List.mem_cons] at h
    rcases h with h | h | h
    · injection h with h1 _
      omega
    · exact absurd h (by simp)
    · have := ih (a + 1) i res h
      omega

theorem backoffPolicyP_valid (strategy : String)
    (hs : strategy = StrategyLinear ∨ strategy = StrategyExponential)
    (N : Nat) (h1 : 1 ≤ N) (h2 : N ≤ 100000) (delay : Int) (p : Nat → Option ε) :
    BackoffPolicyP strategy (N : Int) delay p = pureLoop strategy delay p 0 N none := by
  have hv : ValidateStrategy strategy = none := by
    rcases hs with hs | hs <;> subst hs
    · exact validateStrategy_linear
    · exact validateStrategy_exponential
  have hcond : ¬((N : Int) ≤ 0 ∨ 100000 < (N : Int)) := by
    omega
  simp only [BackoffPolicyP, BackoffPolicy, hv, if_neg hcond, pureLoop, Int.toNat_natCast]

theorem int64Wrap_eq_self (x : Int) (hlo : -(2 ^ 63) ≤ x) (hhi : x < 2 ^ 63) :
    int64Wrap x = x := by
  have e63 : (2 : Int) ^ 63 = 9223372036854775808 := by norm_num
  have e64 : (2 : Int) ^ 64 = 18446744073709551616 := by norm_num
  unfold int64Wrap
  rw [Int.emod_eq_of_lt (by omega) (by omega)]
  omega

theorem delayFor_linear (delay : Int) (i : Nat) :
    delayFor StrategyLinear delay i = delay := by
  simp [delayFor, StrategyLinear, StrategyExponential]

theorem delayFor_exponential_small (delay : Int) (i : Nat) (hi : i ≤ 62)
    (hlo : -(2 ^ 63) ≤ delay * 2 ^ i) (hhi : delay * 2 ^ i < 2 ^ 63) :
    delayFor StrategyExponential delay i = delay * 2 ^ i := by
  unfold delayFor durationOfPow2
  rw [if_pos rfl, if_pos hi, int64Wrap_eq_self _ hlo hhi]

end BackoffLemmas

section BackoffClaims

open backoffpolicy Fixtures

variable {ε : Type}

/-- Claim C1, amended: the claim as frozen quantifies over every `attempts =
N ≥ 1`, but `BackoffPolicy` also rejects `N > 100000` (see C9), so it holds for
`1 ≤ N ≤ 100000`: with a recognized strategy, if the attempt callback fails on
every invocation, `BackoffPolicy` invokes it exactly `N` times, at indices
`0..N-1` in order, and returns the exhaustion error wrapping the last
attempt's error; if the callback first succeeds at attempt `k < N`, exactly
the `k+1` indices `0..k` are invoked and the run returns success (nil). -/
theorem c1_attempt_counts (strategy : String)
    (hs : strategy = StrategyLinear ∨ strategy = StrategyExponential)
    (N : Nat) (h1 : 1 ≤ N) (h2 : N ≤ 100000) (delay : Int) (p : Nat → Option ε) :
    ((∀ j, (p j).isSome) →
      invokedIndices (BackoffPolicyP strategy (N : Int) delay p).1 = List.range N ∧
      (BackoffPolicyP strategy (N : Int) delay p).2 =
        some (.exhausted (p (N - 1)))) ∧
    (∀ k, k < N → p k = none → (∀ j, j < k → (p j).isSome) →
      invokedIndices (BackoffPolicyP strategy (N : Int) delay p).1 = List.range (k + 1) ∧
      (BackoffPolicyP strategy (N : Int) delay p).2 = none) := by
  rw [backoffPolicyP_valid strategy hs N h1 h2 delay p]
  constructor
  · intro hfail
    constructor
    · rw [pureLoop_allFail_events strategy delay p hs N 0 none (fun j _ _ => hfail j),
        failTrace_invokedIndices, List.range_eq_range']
    · obtain ⟨m, rfl⟩ : ∃ m, N = m + 1 := ⟨N - 1, by omega⟩
      rw [pureLoop_allFail_result strategy delay p hs m 0 none (fun j _ _ => hfail j)]
      simp
  · intro k hk hkn hmin
    rw [pureLoop_firstSuccess strategy delay p hs k hkn hmin N 0 none (Nat.zero_le k)
      (by omega)]
    constructor
    · show invokedIndices (failTrace strategy delay p 0 (k - 0) ++ [.invoke k none]) = _
      rw [invokedIndices, List.filterMap_append]
      rw [show List.filterMap _ (failTrace strategy delay p 0 (k - 0)) =
        invokedIndices (failTrace strategy delay p 0 (k - 0)) from rfl]
      rw [failTrace_invokedIndices, Nat.sub_zero, List.range_succ, List.range_eq_range']
      rfl
    · rfl

/-- Witness for C1 at a concrete input: strategy Linear, two attempts, a
callback that always fails. -/
theorem c1_attempt_counts_witness :
    invokedIndices (BackoffPolicyP StrategyLinear (2 : Int) 3 alwaysFailU).1 =
      List.range 2 ∧
    (BackoffPolicyP StrategyLinear (2 : Int) 3 alwaysFailU).2 =
      some (.exhausted (alwaysFailU 1)) :=
  (c1_attempt_counts StrategyLinear (Or.inl rfl) 2 (by omega) (by omega) 3
    alwaysFailU).1 (fun _ => rfl)

/-- Counterexample to C1 as frozen: at `attempts = 100001 ≥ 1` with an
always-failing callback, `BackoffPolicy` performs zero invocations (not
100001) and returns the attempts-validation error instead of an exhaustion
error. -/
theorem c1_counterexample :
    (BackoffPolicyP StrategyLinear (100001 : Int) 1 alwaysFailU).1 = [] ∧
    (BackoffPolicyP StrategyLinear (100001 : Int) 1 alwaysFailU).2 =
      some .attemptsValidation ∧
    invokedIndices (BackoffPolicyP StrategyLinear (100001 : Int) 1 alwaysFailU).1 ≠
      List.range 100001 := by
  refine ⟨rfl, rfl, ?_⟩
  intro h
  rw [show invokedIndices (BackoffPolicyP StrategyLinear (100001 : Int) 1 alwaysFailU).1 =
    [] from rfl] at h
  have := List.range_eq_nil.mp h.symm
  omega

/-- Claim C2, amended: when an attempt succeeds the scheduler does return
immediately, with no further sleep (the trace ends with the successful
invocation); but when every attempt fails, contrary to the claim's
decide-then-sleep ordering, the loop calls `time.Sleep` after the last failed
attempt as well, and only then returns the exhaustion error: the trace ends
with a sleep of the strategy's computed duration for the last attempt — under
Linear the full base delay. -/
theorem c2_no_sleep_only_after_success (strategy : String)
    (hs : strategy = StrategyLinear ∨ strategy = StrategyExponential)
    (N : Nat) (h1 : 1 ≤ N) (h2 : N ≤ 100000) (delay : Int) (p : Nat → Option ε) :
    (∀ k, k < N → p k = none → (∀ j, j < k → (p j).isSome) →
      (BackoffPolicyP strategy (N : Int) delay p).1.getLast? = some (.invoke k none)) ∧
    ((∀ j, (p j).isSome) →
      (BackoffPolicyP strategy (N : Int) delay p).1.getLast? =
        some (.sleep (delayFor strategy delay (N - 1))) ∧
      (BackoffPolicyP strategy (N : Int) delay p).2 =
        some (.exhausted (p (N - 1)))) ∧
    (strategy = StrategyLinear → delayFor strategy delay (N - 1) = delay) := by
  refine ⟨?_, ?_, ?_⟩
  · rw [backoffPolicyP_valid strategy hs N h1 h2 delay p]
    intro k hk hkn hmin
    rw [pureLoop_firstSuccess strategy delay p hs k hkn hmin N 0 none (Nat.zero_le k)
      (by omega)]
    exact List.getLast?_concat _
  · rw [backoffPolicyP_valid strategy hs N h1 h2 delay p]
    intro hfail
    obtain ⟨m, rfl⟩ : ∃ m, N = m + 1 := ⟨N - 1, by omega⟩
    constructor
    · rw [pureLoop_allFail_events strategy delay p hs (m + 1) 0 none (fun j _ _ => hfail j),
        failTrace_getLast]
      simp
    · rw [pureLoop_allFail_result strategy delay p hs m 0 none (fun j _ _ => hfail j)]
      simp
  · intro hL
    subst hL
    exact delayFor_linear delay (N - 1)

/-- Witness for C2 at a concrete input: strategy Linear, two attempts, success
on attempt 0 — the trace ends with the successful invocation, no trailing
sleep. -/
theorem c2_no_sleep_only_after_success_witness :
    (BackoffPolicyP StrategyLinear (2 : Int) 5 alwaysOkU).1.getLast? =
      some (.invoke 0 none) :=
  (c2_no_sleep_only_after_success StrategyLinear (Or.inl rfl) 2 (by omega) (by omega) 5
    alwaysOkU).1 0 (by omega) rfl (fun j hj => absurd hj (by omega))

/-- Counterexample to C2 as frozen: with one allowed attempt that fails
(Linear strategy, base delay 5), the run returns the exhaustion error, yet the
final event of the run is a sleep of the full base delay — a delay IS
performed after the final failed attempt, before the exhaustion error is
returned. -/
theorem c2_counterexample :
    (BackoffPolicyP StrategyLinear (1 : Int) 5 alwaysFailU).1 =
      [.invoke 0 (some ()), .sleep 5] ∧
    (BackoffPolicyP StrategyLinear (1 : Int) 5 alwaysFailU).2 =
      some (.exhausted (some ())) := by
  constructor <;> rfl

/-- Claim C3, amended: in every run of `BackoffPolicy` (valid configuration,
arbitrary attempt callback) in which some attempt `i ≥ 1` executes, the events
immediately separating attempt `i-1` from attempt `i` are exactly one sleep,
whose duration is the `int64` value the code computes for attempt `i-1`; under
Linear that duration is exactly `delay`; under Exponential it equals
`delay * 2^(i-1)` whenever `i-1 ≤ 62` and that product fits in `int64`
(otherwise the `int64` arithmetic wraps — see the counterexample); and the
run's first event is the invocation of attempt 0, i.e. no delay precedes
attempt 0. -/
theorem c3_inter_attempt_delays (strategy : String)
    (hs : strategy = StrategyLinear ∨ strategy = StrategyExponential)
    (N : Nat) (h1 : 1 ≤ N) (h2 : N ≤ 100000) (delay : Int) (p : Nat → Option ε)
    (i : Nat) (hi : 1 ≤ i)
    (hmem : ∃ res, BEvent.invoke i res ∈ (BackoffPolicyP strategy (N : Int) delay p).1) :
    (BackoffPolicyP strategy (N : Int) delay p).1[0]? = some (.invoke 0 (p 0)) ∧
    (∃ j, (BackoffPolicyP strategy (N : Int) delay p).1[j]? =
           some (.invoke (i - 1) (p (i - 1))) ∧
         (BackoffPolicyP strategy (N : Int) delay p).1[j + 1]? =
           some (.sleep (delayFor strategy delay (i - 1))) ∧
         (BackoffPolicyP strategy (N : Int) delay p).1[j + 2]? =
           some (.invoke i (p i))) ∧
    (strategy = StrategyLinear → delayFor strategy delay (i - 1) = delay) ∧
    (strategy = StrategyExponential → i - 1 ≤ 62 →
      -(2 ^ 63) ≤ delay * 2 ^ (i - 1) → delay * 2 ^ (i - 1) < 2 ^ 63 →
      delayFor strategy delay (i - 1) = delay * 2 ^ (i - 1)) := by
  rw [backoffPolicyP_valid strategy hs N h1 h2 delay p] at hmem ⊢
  obtain ⟨m, rfl⟩ : ∃ m, i = m + 1 := ⟨i - 1, by omega⟩
  simp only [Nat.add_sub_cancel]
  refine and_assoc.mp ⟨?_, fun hL => by subst hL; exact delayFor_linear delay m,
    fun hE h62 hlo hhi => by subst hE; exact delayFor_exponential_small delay m h62 hlo hhi⟩
  by_cases hall : ∀ j, j < N → (p j).isSome
  · have hE := pureLoop_allFail_events strategy delay p hs N 0 none
      (fun j _ hj => hall j (by omega))
    rw [hE] at hmem ⊢
    obtain ⟨res, hres⟩ := hmem
    have hbound := failTrace_mem_invoke strategy delay p N 0 (m + 1) res hres
    constructor
    · have h0 := (failTrace_getElem_invoke strategy delay p N 0 0 (by omega)).1
      simpa using h0
    · refine ⟨2 * m, ?_, ?_, ?_⟩
      · have hv := (failTrace_getElem_invoke strategy delay p N 0 m (by omega)).1
        simpa using hv
      · have hv := (failTrace_getElem_invoke strategy delay p N 0 m (by omega)).2
        simp only [Nat.zero_add] at hv
        exact hv
      · have hv := (failTrace_getElem_invoke strategy delay p N 0 (m + 1) (by omega)).1
        rw [show 2 * m + 2 = 2 * (m + 1) from by omega]
        simpa using hv
  · push_neg at hall
    obtain ⟨j0, hj0N, hj0⟩ := hall
    have hj0n : p j0 = none := Option.not_isSome_iff_eq_none.mp hj0
    have hex : ∃ n, (p n).isNone = true := ⟨j0, by simp [hj0n]⟩
    obtain ⟨k, hkn, hmin, hkN⟩ :
        ∃ k, p k = none ∧ (∀ j, j < k → (p j).isSome) ∧ k < N := by
      refine ⟨Nat.find hex, Option.isNone_iff_eq_none.mp (Nat.find_spec hex), ?_, ?_⟩
      · intro j hj
        have hne := Nat.find_min hex hj
        cases h : p j
        · exact absurd (by simp [h]) hne
        · rfl
      · exact lt_of_le_of_lt (Nat.find_min' hex (by simp [hj0n])) hj0N
    have hE := pureLoop_firstSuccess strategy delay p hs k hkn hmin N 0 none
      (Nat.zero_le k) (by omega)
    rw [hE] at hmem ⊢
    simp only [Nat.sub_zero] at hmem ⊢
    obtain ⟨res, hres⟩ := hmem
    have hlen : (failTrace strategy delay p 0 k).length = 2 * k :=
      failTrace_length strategy delay p k 0
    have him : m + 1 ≤ k := by
      rcases List.mem_append.mp hres with h | h
      · have := failTrace_mem_invoke strategy delay p k 0 (m + 1) res h
        omega
      · rw [List.mem_singleton] at h
        injection h with h1 _
        omega
    constructor
    · rw [List.getElem?_append, if_pos (by omega)]
      have h0 := (failTrace_getElem_invoke strategy delay p k 0 0 (by omega)).1
      simpa using h0
    · refine ⟨2 * m, ?_, ?_, ?_⟩
      · rw [List.getElem?_append, if_pos (by omega)]
        have hv := (failTrace_getElem_invoke strategy delay p k 0 m (by omega)).1
        simpa using hv
      · rw [List.getElem?_append, if_pos (by omega)]
        have hv := (failTrace_getElem_invoke strategy delay p k 0 m (by omega)).2
        simp only [Nat.zero_add] at hv
        exact hv
      · by_cases hik : m + 1 < k
        · rw [List.getElem?_append, if_pos (by omega),
            show 2 * m + 2 = 2 * (m + 1) from by omega]
          have hv := (failTrace_getElem_invoke strategy delay p k 0 (m + 1) hik).1
          simpa using hv
        · have hkeq : k = m + 1 := by omega
          rw [List.getElem?_append, if_neg (by omega)]
          rw [show 2 * m + 2 - (failTrace strategy delay p 0 k).length = 0 from by omega]
          rw [← hkeq, hkn]
          rfl

/-- Witness for C3 at a concrete input: Linear strategy, two attempts, base
delay 7, always-failing callback, `i = 1`. -/
theorem c3_inter_attempt_delays_witness :
    (BackoffPolicyP StrategyLinear (2 : Int) 7 alwaysFailU).1[0]? =
      some (.invoke 0 (alwaysFailU 0)) ∧
    (∃ j, (BackoffPolicyP StrategyLinear (2 : Int) 7 alwaysFailU).1[j]? =
           some (.invoke 0 (alwaysFailU 0)) ∧
         (BackoffPolicyP StrategyLinear (2 : Int) 7 alwaysFailU).1[j + 1]? =
           some (.sleep (delayFor StrategyLinear 7 0)) ∧
         (BackoffPolicyP StrategyLinear (2 : Int) 7 alwaysFailU).1[j + 2]? =
           some (.invoke 1 (alwaysFailU 1))) ∧
    (StrategyLinear = StrategyLinear → delayFor StrategyLinear 7 0 = 7) ∧
    (StrategyLinear = StrategyExponential → 0 ≤ 62 →
      -(2 ^ 63) ≤ (7 : Int) * 2 ^ 0 → (7 : Int) * 2 ^ 0 < 2 ^ 63 →
      delayFor StrategyLinear 7 0 = (7 : Int) * 2 ^ 0) :=
  c3_inter_attempt_delays StrategyLinear (Or.inl rfl) 2 (by omega) (by omega) 7
    alwaysFailU 1 (by omega) ⟨some (), by decide⟩

/-- Counterexample to C3 as frozen: Exponential strategy, base delay 1 second
(1000000000 ns), 36 attempts, always-failing callback.  The wait between
attempt 34 and attempt 35 (the sleep at trace position 69, between the two
invocations) is the `int64`-wrapped duration -1266874889709551616 ns — Go
computes `1000000000 * int64(math.Pow(2, 34))` in `int64`, which wraps
negative, so `time.Sleep` returns immediately — and not the claim's
`baseDelay * 2^(i-1) = 1000000000 * 2^34` nanoseconds. -/
theorem c3_counterexample :
    (BackoffPolicyP StrategyExponential (36 : Int) 1000000000 alwaysFailU).1[68]? =
      some (.invoke 34 (some ())) ∧
    (BackoffPolicyP StrategyExponential (36 : Int) 1000000000 alwaysFailU).1[69]? =
      some (.sleep (-1266874889709551616)) ∧
    (BackoffPolicyP StrategyExponential (36 : Int) 1000000000 alwaysFailU).1[70]? =
      some (.invoke 35 (some ())) ∧
    ((-1266874889709551616 : Int) ≠ 1000000000 * 2 ^ 34) :=
  ⟨by decide, by decide, by decide, by decide⟩

/-- Claim C5, confirmed: an unrecognized strategy or a non-positive attempt
count is rejected with an error before the attempt callback is invoked even
once — `BackoffPolicy` returns an error with an empty event trace (zero
attempts), and at option-setting time `WithAttempts` rejects every attempts
value below 1 and `WithStrategy` rejects every unrecognized strategy. -/
theorem c5_invalid_config_rejected (strategy : String) (attempts delay : Int)
    (p : Nat → Option ε) (c c' : retryablehttp.Client) (a : Nat) :
    ((ValidateStrategy strategy).isSome ∨ attempts ≤ 0 →
      (BackoffPolicyP strategy attempts delay p).1 = [] ∧
      (BackoffPolicyP strategy attempts delay p).2.isSome) ∧
    (a < 1 → ∃ m, retryablehttp.WithAttempts a c = .error m) ∧
    ((ValidateStrategy strategy).isSome →
      ∃ m, retryablehttp.WithStrategy strategy c' = .error m) := by
  have hset : (ValidateStrategy strategy).isSome →
      ¬(strategy = StrategyLinear ∨ strategy = StrategyExponential) := by
    intro hv hor
    rcases hor with h | h <;> subst h <;> simp [validateStrategy_linear,
      validateStrategy_exponential] at hv
  refine ⟨?_, ?_, ?_⟩
  · intro h
    simp only [BackoffPolicyP, BackoffPolicy]
    cases hv : ValidateStrategy strategy with
    | some m => simp
    | none =>
      have hle : attempts ≤ 0 := by
        rcases h with h | h
        · rw [hv] at h
          simp at h
        · exact h
      rw [if_pos (Or.inl hle)]
      simp
  · intro ha
    exact ⟨"invalid attempts value", by simp [retryablehttp.WithAttempts, ha]⟩
  · intro hv
    have hne := hset hv
    refine ⟨"invalid backoff strategy", ?_⟩
    rw [retryablehttp.WithStrategy, if_neg ?_]
    intro hc
    have hmem : strategy ∈ ([StrategyExponential, StrategyLinear] : List String) := by
      simpa using hc
    rcases List.mem_cons.mp hmem with h | h
    · exact hne (Or.inr h)
    · rw [List.mem_singleton] at h
      exact hne (Or.inl h)

/-- Witness for C5 at a concrete input: strategy `"Bogus"`, attempts 0. -/
theorem c5_invalid_config_rejected_witness :
    ((BackoffPolicyP "Bogus" (0 : Int) 1 alwaysFailU).1 = [] ∧
      (BackoffPolicyP "Bogus" (0 : Int) 1 alwaysFailU).2.isSome) ∧
    (∃ m, retryablehttp.WithAttempts 0 clientL5 = .error m) ∧
    (∃ m, retryablehttp.WithStrategy "Bogus" clientL5 = .error m) :=
  ⟨(c5_invalid_config_rejected "Bogus" 0 1 alwaysFailU clientL5 clientL5 0).1
      (Or.inl (by decide)),
   (c5_invalid_config_rejected "Bogus" 0 1 alwaysFailU clientL5 clientL5 0).2.1
      (by omega),
   (c5_invalid_config_rejected "Bogus" 0 1 alwaysFailU clientL5 clientL5 0).2.2
      (by decide)⟩

/-- Claim C9, confirmed: every attempts value strictly greater than 100000 is
rejected by `BackoffPolicy` with a validation error before the attempt
callback is invoked even once (empty event trace); with a recognized strategy
the error is specifically the attempts-validation error of the
`"required,gt=0,lte=100000"` rule. -/
theorem c9_attempts_upper_bound (strategy : String) (attempts delay : Int)
    (p : Nat → Option ε) (h : 100000 < attempts) :
    (BackoffPolicyP strategy attempts delay p).1 = [] ∧
    (BackoffPolicyP strategy attempts delay p).2.isSome ∧
    ((strategy = StrategyLinear ∨ strategy = StrategyExponential) →
      (BackoffPolicyP strategy attempts delay p).2 = some .attemptsValidation) := by
  simp only [BackoffPolicyP, BackoffPolicy]
  cases hv : ValidateStrategy strategy with
  | some m =>
    refine ⟨rfl, rfl, ?_⟩
    intro hs
    rcases hs with hs | hs <;> subst hs <;>
      simp [validateStrategy_linear, validateStrategy_exponential] at hv
  | none =>
    rw [if_pos (Or.inr h)]
    exact ⟨rfl, rfl, fun _ => rfl⟩

/-- Witness for C9 at a concrete input: Linear strategy, attempts 100001. -/
theorem c9_attempts_upper_bound_witness :
    (BackoffPolicyP StrategyLinear (100001 : Int) 1 alwaysOkU).1 = [] ∧
    (BackoffPolicyP StrategyLinear (100001 : Int) 1 alwaysOkU).2.isSome ∧
    ((StrategyLinear = StrategyLinear ∨ StrategyLinear = StrategyExponential) →
      (BackoffPolicyP StrategyLinear (100001 : Int) 1 alwaysOkU).2 =
        some .attemptsValidation) :=
  c9_attempts_upper_bound StrategyLinear 100001 1 alwaysOkU (by omega)

end BackoffClaims

section DoClaims

open backoffpolicy retryablehttp Fixtures

variable {ε τ π : Type}

/-- Claim C7, confirmed: with no transport error, `defaultPolicy` accepts
exactly the status codes in `[200, 299]`; every other status code is rejected
with an error carrying that status code; and every non-nil transport error
yields a failure that propagates the error. -/
theorem c7_default_policy (r : Response) (ro : Option Response) (e : ε) :
    ((defaultPolicy (some r) (none : Option ε) = none) ↔
      (200 ≤ r.statusCode ∧ r.statusCode ≤ 299)) ∧
    ((200 ≤ r.statusCode ∧ r.statusCode ≤ 299) ∨
      defaultPolicy (some r) (none : Option ε) = some (.statusOutside r.statusCode)) ∧
    defaultPolicy ro (some e) = some (.propagating e) := by
  refine ⟨?_, ?_, rfl⟩
  · by_cases hc : r.statusCode < 200 ∨ 299 < r.statusCode
    · simp only [defaultPolicy, if_pos hc]
      constructor
      · intro h
        exact absurd h (by simp)
      · intro h
        omega
    · simp only [defaultPolicy, if_neg hc]
      constructor
      · intro _
        omega
      · intro _
        trivial
  · by_cases hc : r.statusCode < 200 ∨ 299 < r.statusCode
    · exact Or.inr (by simp [defaultPolicy, if_pos hc])
    · exact Or.inl (by omega)

/-- Witness for C7 at concrete inputs: status 204 is accepted, status 500 is
rejected carrying the code, and a transport error propagates. -/
theorem c7_default_policy_witness :
    ((defaultPolicy (some ⟨204⟩) (none : Option Unit) = none) ↔
      (200 ≤ (⟨204⟩ : Response).statusCode ∧ (⟨204⟩ : Response).statusCode ≤ 299)) ∧
    ((200 ≤ (⟨500⟩ : Response).statusCode ∧ (⟨500⟩ : Response).statusCode ≤ 299) ∨
      defaultPolicy (some ⟨500⟩) (none : Option Unit) =
        some (.statusOutside (⟨500⟩ : Response).statusCode)) ∧
    defaultPolicy (some ⟨500⟩) (some ()) = some (.propagating ()) :=
  ⟨(c7_default_policy ⟨204⟩ (some ⟨204⟩) ()).1,
   (c7_default_policy ⟨500⟩ (some ⟨500⟩) ()).2.1,
   (c7_default_policy ⟨500⟩ (some ⟨500⟩) ()).2.2⟩

/-- Claim C10, confirmed: on every path on which `Do` returns a non-nil error
(invalid URL, request-construction failure, context closed, backoff
exhaustion) the returned response is nil — equivalently, every `Do` result has
a nil response or a nil error. -/
theorem c10_error_implies_nil_response (cancelAt : Option Int) (startNow : Int)
    (c : Client) (isHttpUrl : String → Bool) (newReqOk : String → String → Bool)
    (transport : Nat → Option Response × Option τ)
    (policy : Option Response → Option τ → Option π)
    (url method : String) (body : List Nat) :
    (Do cancelAt startNow c isHttpUrl newReqOk transport policy url method body).resp
        = none ∨
    (Do cancelAt startNow c isHttpUrl newReqOk transport policy url method body).err
        = none := by
  unfold Do
  split
  · exact Or.inl rfl
  · split
    · exact Or.inl rfl
    · split
      · exact Or.inl rfl
      · dsimp only
        split
        · exact Or.inl rfl
        · exact Or.inr rfl

theorem doStep_ctx (cancelAt : Option Int) (transport : Nat → Option Response × Option τ)
    (policy : Option Response → Option τ → Option π) (body : List Nat)
    (a : Nat) (s : DoState) (h : ctxTriggered cancelAt s.now = true) :
    doStep cancelAt transport policy body a s = (s, some .ctxClosed) := by
  simp [doStep, h]

theorem doStep_send (cancelAt : Option Int) (transport : Nat → Option Response × Option τ)
    (policy : Option Response → Option τ → Option π) (body : List Nat)
    (a : Nat) (s : DoState) (h : ctxTriggered cancelAt s.now = false) :
    doStep cancelAt transport policy body a s =
      (⟨s.now, [], (transport a).1,
          s.sends ++ [(a, if 0 < a then body else s.bodyRem)]⟩,
        ((policy (transport a).1 (transport a).2).map AttemptErr.policyReject)) := by
  by_cases h0 : 0 < a <;> simp [doStep, h, h0]

theorem doLoop_sends_from_body (cancelAt : Option Int)
    (transport : Nat → Option Response × Option τ)
    (policy : Option Response → Option τ → Option π) (body : List Nat)
    (strategy : String) (delay : Int) :
    ∀ (r a : Nat) (lastErr : Option (AttemptErr π)) (s : DoState),
      (a = 0 → s.bodyRem = body) →
      ∀ pr ∈ ((backoffLoop strategy delay sleepFxDo
          (doStep cancelAt transport policy body) a r lastErr s).1).sends,
        pr ∈ s.sends ∨ pr.2 = body := by
  intro r
  induction r with
  | zero => intro a lastErr s _ pr hpr; exact Or.inl hpr
  | succ r ih =>
    intro a lastErr s h pr hpr
    rw [backoffLoop] at hpr
    by_cases hctx : ctxTriggered cancelAt s.now = true
    · rw [doStep_ctx cancelAt transport policy body a s hctx] at hpr
      dsimp only at hpr
      split at hpr
      · have hrec := ih (a + 1) (some .ctxClosed)
          (sleepFxDo (int64Wrap (delay * durationOfPow2 a)) s)
          (fun hcon => absurd hcon (by omega)) pr hpr
        exact hrec
      · split at hpr
        · have hrec := ih (a + 1) (some .ctxClosed)
            (sleepFxDo delay s) (fun hcon => absurd hcon (by omega)) pr hpr
          exact hrec
        · exact Or.inl hpr
    · rw [Bool.not_eq_true] at hctx
      rw [doStep_send cancelAt transport policy body a s hctx] at hpr
      have hdel : (if 0 < a then body else s.bodyRem) = body := by
        by_cases h0 : 0 < a
        · rw [if_pos h0]
        · rw [if_neg h0, h (by omega)]
      rw [hdel] at hpr
      dsimp only at hpr
      split at hpr
      · rcases List.mem_append.mp hpr with hm | hm
        · exact Or.inl hm
        · rw [List.mem_singleton] at hm
          subst hm
          exact Or.inr rfl
      · split at hpr
        · have hrec := ih (a + 1) _
            (sleepFxDo (int64Wrap (delay * durationOfPow2 a))
              ⟨s.now, [], (transport a).1, s.sends ++ [(a, body)]⟩)
            (fun hcon => absurd hcon (by omega)) pr hpr
          rcases hrec with hm | hm
          · rcases List.mem_append.mp hm with hm' | hm'
            · exact Or.inl hm'
            · rw [List.mem_singleton] at hm'
              subst hm'
              exact Or.inr rfl
          · exact Or.inr hm
        · split at hpr
          · have hrec := ih (a + 1) _
              (sleepFxDo delay
                ⟨s.now, [], (transport a).1, s.sends ++ [(a, body)]⟩)
              (fun hcon => absurd hcon (by omega)) pr hpr
            rcases hrec with hm | hm
            · rcases List.mem_append.mp hm with hm' | hm'
              · exact Or.inl hm'
              · rw [List.mem_singleton] at hm'
                subst hm'
                exact Or.inr rfl
            · exact Or.inr hm
          · rcases List.mem_append.mp hpr with hm | hm
            · exact Or.inl hm
            · rw [List.mem_singleton] at hm
              subst hm
              exact Or.inr rfl

/-- Claim C4, confirmed: in every `Do` call, every invocation of the transport
— on attempt 0 and on every retry `i > 0` — delivers exactly the original
request body bytes `body`: attempt 0 reads the fresh reader created at request
construction, and every later attempt first resets `req.Body` to a fresh
reader over the same bytes, even though the transport drained the stream on
the prior attempt. -/
theorem c4_body_reset (cancelAt : Option Int) (startNow : Int) (c : Client)
    (isHttpUrl : String → Bool) (newReqOk : String → String → Bool)
    (transport : Nat → Option Response × Option τ)
    (policy : Option Response → Option τ → Option π)
    (url method : String) (body : List Nat) (i : Nat) (bs : List Nat)
    (hmem : (i, bs) ∈
      (Do cancelAt startNow c isHttpUrl newReqOk transport policy url method body).sends) :
    bs = body := by
  unfold Do at hmem
  split at hmem
  · exact absurd hmem (by simp)
  · split at hmem
    · exact absurd hmem (by simp)
    · split at hmem
      · exact absurd hmem (by simp)
      · dsimp only at hmem
        have hbase : ∀ pr ∈ ((BackoffPolicy c.strategy (c.attempts : Int) c.delay
            sleepFxDo (doStep cancelAt transport policy body)
            (⟨startNow, body, some ⟨0⟩, []⟩ : DoState)).1).sends,
            pr ∈ (⟨startNow, body, some ⟨0⟩, []⟩ : DoState).sends ∨ pr.2 = body := by
          unfold BackoffPolicy
          split
          · intro pr hpr
            exact Or.inl hpr
          · split
            · intro pr hpr
              exact Or.inl hpr
            · exact doLoop_sends_from_body cancelAt transport policy body c.strategy
                c.delay (c.attempts : Int).toNat 0 none _ (fun _ => rfl)
        split at hmem
        · rcases hbase (i, bs) hmem with hm | hm
          · exact absurd hm (by simp)
          · exact hm
        · rcases hbase (i, bs) hmem with hm | hm
          · exact absurd hm (by simp)
          · exact hm

/-- Witness for C4 at a concrete input: a transport stub that fails with
status 500 on attempt 0 and succeeds on attempt 1, the default policy, body
`[1, 2, 3]` — attempt 1 occurs and its delivered body is the original bytes. -/
theorem c4_body_reset_witness :
    ((1, [1, 2, 3]) ∈
      (Do none 0 clientL5 urlOkAll reqOkAll transport500then200
        (defaultPolicy (ε := Unit)) "http://example.com" "POST" [1, 2, 3]).sends) ∧
    ([1, 2, 3] : List Nat) = [1, 2, 3] :=
  ⟨by decide,
   c4_body_reset none 0 clientL5 urlOkAll reqOkAll transport500then200
     (defaultPolicy (ε := Unit)) "http://example.com" "POST" [1, 2, 3] 1 [1, 2, 3]
     (by decide)⟩

/-- Claim C6, amended: when the client's context is already cancelled or
expired at the moment `Do` is called, the transport is never invoked (no
network I/O, no attempt consumed); and provided the URL passes validation and
the request constructs, `Do` returns a nil response with the context-closed
error.  (The amendment is forced by the counterexample below: `Do` validates
the URL before consulting the context, so with an invalid URL the returned
error is the URL-validation error, not the context-closed error.) -/
theorem c6_precancelled_context (cancelAt : Option Int) (startNow : Int) (c : Client)
    (isHttpUrl : String → Bool) (newReqOk : String → String → Bool)
    (transport : Nat → Option Response × Option τ)
    (policy : Option Response → Option τ → Option π)
    (url method : String) (body : List Nat)
    (hctx : ctxTriggered cancelAt startNow = true) :
    (Do cancelAt startNow c isHttpUrl newReqOk transport policy url method body).sends
        = [] ∧
    (isHttpUrl url = true → newReqOk method url = true →
      (Do cancelAt startNow c isHttpUrl newReqOk transport policy url method body).resp
          = none ∧
      (Do cancelAt startNow c isHttpUrl newReqOk transport policy url method body).err
          = some .contextClosed) := by
  by_cases hurl : isHttpUrl url = true
  · by_cases hreq : newReqOk method url = true
    · have hDo : Do cancelAt startNow c isHttpUrl newReqOk transport policy
          url method body =
          ⟨none, some .contextClosed, [], []⟩ := by
        unfold Do
        rw [if_neg (by simp [hurl]), if_neg (by simp [hreq])]
        dsimp only
        rw [if_pos hctx]
      rw [hDo]
      exact ⟨rfl, fun _ _ => ⟨rfl, rfl⟩⟩
    · have hDo : Do cancelAt startNow c isHttpUrl newReqOk transport policy
          url method body = ⟨none, some .newRequest, [], []⟩ := by
        unfold Do
        rw [if_neg (by simp [hurl]), if_pos (by simp [hreq])]
      rw [hDo]
      exact ⟨rfl, fun _ h => absurd h hreq⟩
  · have hDo : Do cancelAt startNow c isHttpUrl newReqOk transport policy
        url method body = ⟨none, some .urlValidation, [], []⟩ := by
      unfold Do
      rw [if_pos (by simp [hurl])]
    rw [hDo]
    exact ⟨rfl, fun h _ => absurd h hurl⟩

/-- Witness for C6 at a concrete input: context cancelled at time 0, call at
time 0, valid URL, constructible request — no transport invocation and the
context-closed error. -/
theorem c6_precancelled_context_witness :
    (Do (some 0) 0 clientL5 urlOkAll reqOkAll transport500
      (defaultPolicy (ε := Unit)) "http://example.com" "GET" []).sends = [] ∧
    (urlOkAll "http://example.com" = true → reqOkAll "GET" "http://example.com" = true →
      (Do (some 0) 0 clientL5 urlOkAll reqOkAll transport500
        (defaultPolicy (ε := Unit)) "http://example.com" "GET" []).resp = none ∧
      (Do (some 0) 0 clientL5 urlOkAll reqOkAll transport500
        (defaultPolicy (ε := Unit)) "http://example.com" "GET" []).err =
          some .contextClosed) :=
  c6_precancelled_context (some 0) 0 clientL5 urlOkAll reqOkAll transport500
    (defaultPolicy (ε := Unit)) "http://example.com" "GET" [] (by decide)

/-- Counterexample to C6 as frozen: the claim asserts that EVERY `Do` call
with an already-triggered cancellation signal returns a context-closed error.
With the context cancelled at time 0 but the malformed URL `"not a url"`, `Do`
returns the URL-validation error instead (URL validation precedes the context
check); the transport is still never invoked. -/
theorem c6_counterexample :
    ctxTriggered (some 0) 0 = true ∧
    (Do (some 0) 0 clientL5 urlOkOne reqOkAll transport500
      (defaultPolicy (ε := Unit)) "not a url" "GET" []).err = some .urlValidation ∧
    ¬((Do (some 0) 0 clientL5 urlOkOne reqOkAll transport500
      (defaultPolicy (ε := Unit)) "not a url" "GET" []).err = some .contextClosed) ∧
    (Do (some 0) 0 clientL5 urlOkOne reqOkAll transport500
      (defaultPolicy (ε := Unit)) "not a url" "GET" []).sends = [] := by
  refine ⟨rfl, by decide, by decide, by decide⟩

/-- Claim C8, refuted on the code (the cancellation-check half holds, the
interruptible-wait half does not): a concrete run with Linear strategy, base
delay 10, 3 attempts, transport always answering 500, and the context
expiring at time 5 — during the first inter-attempt wait.  The code's
`time.Sleep` does not observe the context: all three sleeps run for the full
10 units (none is cut short at the cancellation time), the clock passes 5
mid-first-sleep; the post-wake cancellation check does hold: no transport call
after attempt 0, and every later attempt fails with the context-closed error,
which the exhaustion error finally wraps. -/
theorem c8_sleep_not_interruptible :
    ctxTriggered (some 5) 0 = false ∧
    ctxTriggered (some 5) 10 = true ∧
    sleepsOf (Do (some 5) 0 clientL3d10 urlOkAll reqOkAll transport500
      (defaultPolicy (ε := Unit)) "http://example.com" "GET" []).events =
        [10, 10, 10] ∧
    (Do (some 5) 0 clientL3d10 urlOkAll reqOkAll transport500
      (defaultPolicy (ε := Unit)) "http://example.com" "GET" []).sends =
        [(0, [])] ∧
    (Do (some 5) 0 clientL3d10 urlOkAll reqOkAll transport500
      (defaultPolicy (ε := Unit)) "http://example.com" "GET" []).err =
        some (.backoffExpired (.exhausted (some .ctxClosed))) := by
  refine ⟨rfl, rfl, by decide, by decide, by decide⟩

end DoClaims
